import Mathlib

/-!
Verification development for the gitgeist analytical core: the structural
extraction and diff engine (`gitgeist/analysis/ast_parser.py`), the debounced
file watcher (`gitgeist/core/watcher.py`) and the embedding-backed memory
store (`gitgeist/memory/vector_store.py`). Python functions are embedded
shallowly: dictionaries become association lists with last-write-wins
lookup, Python sets enter through membership-preserving list operations,
SQLite tables become lists of rows, and float arithmetic is idealised as
exact rational arithmetic with an explicit marker for the IEEE NaN produced
by a 0/0 cosine division.
-/

namespace Gitgeist

/-! ## Data model (spec §3, ast_parser.py / watcher.py dictionaries)

A function or class entry produced by `extract_functions` / `extract_classes`:
`{"name": ..., "start_line": node.start_point[0]+1, "end_line": node.end_point[0]+1}`.
The `"type"` tag is constant per category and carries no information, so it
is not modelled. -/
structure FuncInfo where
  name : String
  start_line : Nat
  end_line : Nat
deriving Repr, DecidableEq

/-- An entry of `extract_imports`: `{"statement": node.text, "line": ...}`. -/
structure ImportInfo where
  statement : String
  line : Nat
deriving Repr, DecidableEq

/-- The dictionary returned by `analyze_file_structure` / `analyze_content_structure`. -/
structure FileStructure where
  functions : List FuncInfo
  classes : List FuncInfo
  imports : List ImportInfo
  total_lines : Nat
deriving Repr, DecidableEq

/-- The change dictionary built by `GitgeistASTParser._compare_structures`
(ast_parser.py).  It does initialise a `classes_modified` entry. -/
structure SemanticChanges where
  functions_added : List String
  functions_removed : List String
  functions_modified : List String
  classes_added : List String
  classes_removed : List String
  classes_modified : List String
  imports_changed : Bool
deriving Repr, DecidableEq

/-- The change dictionary built by `GitgeistFileHandler._compare_structures`
(watcher.py).  This variant has no `classes_modified` key at all. -/
structure WSemanticChanges where
  functions_added : List String
  functions_removed : List String
  functions_modified : List String
  classes_added : List String
  classes_removed : List String
  imports_changed : Bool
deriving Repr, DecidableEq

/-- `{f["name"]: f for f in fs}[n]`: a Python dict comprehension binds the
final (last) occurrence of each key, so lookup finds the last entry whose
name is `n`. -/
def dictLookup (fs : List FuncInfo) (n : String) : Option FuncInfo :=
  fs.reverse.find? (fun f => f.name = n)

/-- The key set of `{f["name"]: f for f in fs}`, one entry per name
(insertion order of keys is irrelevant: every property proved below is
stated through membership). -/
def dictKeys (fs : List FuncInfo) : List String :=
  (fs.map (·.name)).dedup

/-- Whether two Python lists of strings are equal as sets
(`set(old) != set(new)` on import statement texts). -/
def sameStrSet (a b : List String) : Bool :=
  decide (∀ x ∈ a, x ∈ b) && decide (∀ x ∈ b, x ∈ a)

/-- The `(start_line, end_line)` proxy test of ast_parser.py lines 289-294. -/
def pairDiffers (o f : FuncInfo) : Bool :=
  decide (o.start_line ≠ f.start_line) || decide (o.end_line ≠ f.end_line)

/-- `old_funcs[name]["start_line"] != ... or old_funcs[name]["end_line"] != ...`
for a name in `set(old) & set(new)` (ast_parser.py `_compare_structures`). -/
def modifiedCheck (old new : List FuncInfo) (n : String) : Bool :=
  match dictLookup old n, dictLookup new n with
  | some o, some f => pairDiffers o f
  | _, _ => false

/-- watcher.py line 107 compares only `start_line`. -/
def wModifiedCheck (old new : List FuncInfo) (n : String) : Bool :=
  match dictLookup old n, dictLookup new n with
  | some o, some f => decide (o.start_line ≠ f.start_line)
  | _, _ => false

/-- `GitgeistASTParser._compare_structures` (ast_parser.py lines 267-312).
Added/removed sets are key-set differences; `functions_modified` collects the
common names whose `(start_line, end_line)` pair differs; `classes_modified`
is initialised to `[]` and never appended to; `imports_changed` compares the
sets of raw statement texts. -/
def compare_structures (old new : FileStructure) : SemanticChanges :=
  let oldF := dictKeys old.functions
  let newF := dictKeys new.functions
  let oldC := dictKeys old.classes
  let newC := dictKeys new.classes
  { functions_added := newF.filter (fun n => decide (n ∉ oldF))
    functions_removed := oldF.filter (fun n => decide (n ∉ newF))
    functions_modified :=
      oldF.filter (fun n => decide (n ∈ newF) && modifiedCheck old.functions new.functions n)
    classes_added := newC.filter (fun n => decide (n ∉ oldC))
    classes_removed := oldC.filter (fun n => decide (n ∉ newC))
    classes_modified := []
    imports_changed :=
      !sameStrSet (old.imports.map (·.statement)) (new.imports.map (·.statement)) }

/-- `GitgeistFileHandler._compare_structures` (watcher.py lines 87-122):
same key-set differences, but `functions_modified` compares only
`start_line` and there is no `classes_modified` entry. -/
def watcher_compare_structures (old new : FileStructure) : WSemanticChanges :=
  let oldF := dictKeys old.functions
  let newF := dictKeys new.functions
  let oldC := dictKeys old.classes
  let newC := dictKeys new.classes
  { functions_added := newF.filter (fun n => decide (n ∉ oldF))
    functions_removed := oldF.filter (fun n => decide (n ∉ newF))
    functions_modified :=
      oldF.filter (fun n => decide (n ∈ newF) && wModifiedCheck old.functions new.functions n)
    classes_added := newC.filter (fun n => decide (n ∉ oldC))
    classes_removed := oldC.filter (fun n => decide (n ∉ newC))
    imports_changed :=
      !sameStrSet (old.imports.map (·.statement)) (new.imports.map (·.statement)) }

/-- The structure `analyze_content_structure` yields for empty source text:
tree-sitter parses `""` to a bare module node, so no functions, classes or
statements are extracted (this is the `old_content = ""` new-file path of
`git_handler.get_semantic_diff`). -/
def emptyStructure : FileStructure :=
  { functions := [], classes := [], imports := [], total_lines := 1 }

/-! ## Language detection (`GitgeistASTParser.detect_language`)

`Path(filepath).suffix` in CPython: take the last path component (empty and
`"."` components do not count), find the last `"."` in it, and return the
tail from that dot when the dot is neither the first nor the last character
of the component; otherwise return `""`. -/

/-- Split a character list at every occurrence of `sep` (the groups between
separators, like `str.split(sep)`). -/
def splitOnSep (sep : Char) : List Char → List (List Char)
  | [] => [[]]
  | x :: rest =>
    let r := splitOnSep sep rest
    if x = sep then [] :: r
    else
      match r with
      | [] => [[x]]
      | g :: gs => (x :: g) :: gs

def pathComponents (p : String) : List (List Char) :=
  (splitOnSep '/' p.data).filter (fun s => decide (s ≠ [] ∧ s ≠ ['.']))

def pathName (p : String) : List Char :=
  (pathComponents p).getLast?.getD []

/-- The index of the last `'.'`, via the first `'.'` of the reversal. -/
def lastDotIdx (cs : List Char) : Option Nat :=
  match cs.reverse.findIdx? (· = '.') with
  | some r => some (cs.length - 1 - r)
  | none => none

def suffixOf (p : String) : String :=
  let cs := pathName p
  match lastDotIdx cs with
  | some i => if 0 < i ∧ i + 1 < cs.length then String.mk (cs.drop i) else ""
  | none => ""

/-- `str.lower()`, characterwise. -/
def lowerStr (s : String) : String :=
  String.mk (s.data.map Char.toLower)

/-- The `ext_map` literal of `detect_language` (ast_parser.py lines 63-69). -/
def ext_map : List (String × String) :=
  [(".py", "python"), (".js", "javascript"), (".jsx", "javascript"),
   (".ts", "typescript"), (".tsx", "typescript")]

/-- `detect_language`: `ext_map.get(Path(filepath).suffix.lower())`. -/
def detect_language (filepath : String) : Option String :=
  ext_map.lookup (lowerStr (suffixOf filepath))

/-! ## Syntax trees and structural extraction

A tree-sitter node: its `type` tag, its source `text`, the text of its
`"name"` field when the grammar provides one, its start/end rows
(`start_point[0]` / `end_point[0]`), and its children. -/

inductive Tree where
  | node (kind : String) (text : String) (nameField : Option String)
      (startRow : Nat) (endRow : Nat) (children : List Tree)
deriving Repr

def Tree.endRow : Tree → Nat
  | .node _ _ _ _ e _ => e

/-- `GitgeistASTParser._extract_js_function_name`: the `"name"` field text of
a `function_declaration`, `"anonymous"` in every other case (so the result
is never empty and the caller's `if name:` test always passes). -/
def js_function_name (kind : String) (nameField : Option String) : String :=
  if kind = "function_declaration" then
    match nameField with
    | some nm => nm
    | none => "anonymous"
  else "anonymous"

/-! `extract_functions` / `extract_classes` / `extract_imports` each test the
current node, then recurse into every child and concatenate
(`for child in node.children: out.extend(recurse(child))`): direct call
recursion, one nested call frame per nesting level. -/

mutual

def extract_functions (t : Tree) (language : String) : List FuncInfo :=
  match t with
  | .node kind _ nameF s e children =>
    (if language = "python" then
      if kind = "function_definition" then
        match nameF with
        | some nm => [⟨nm, s + 1, e + 1⟩]
        | none => []
      else []
    else if language = "javascript" ∨ language = "typescript" then
      if kind = "function_declaration" ∨ kind = "arrow_function" ∨
          kind = "function_expression" then
        [⟨js_function_name kind nameF, s + 1, e + 1⟩]
      else []
    else []) ++ extract_functions_list children language

def extract_functions_list (ts : List Tree) (language : String) : List FuncInfo :=
  match ts with
  | [] => []
  | t :: rest => extract_functions t language ++ extract_functions_list rest language

end

mutual

def extract_classes (t : Tree) (language : String) : List FuncInfo :=
  match t with
  | .node kind _ nameF s e children =>
    (if language = "python" then
      if kind = "class_definition" then
        match nameF with
        | some nm => [⟨nm, s + 1, e + 1⟩]
        | none => []
      else []
    else if language = "javascript" ∨ language = "typescript" then
      if kind = "class_declaration" then
        match nameF with
        | some nm => [⟨nm, s + 1, e + 1⟩]
        | none => []
      else []
    else []) ++ extract_classes_list children language

def extract_classes_list (ts : List Tree) (language : String) : List FuncInfo :=
  match ts with
  | [] => []
  | t :: rest => extract_classes t language ++ extract_classes_list rest language

end

mutual

def extract_imports (t : Tree) (language : String) : List ImportInfo :=
  match t with
  | .node kind text _ s _ children =>
    (if language = "python" then
      if kind = "import_statement" ∨ kind = "import_from_statement" then
        [⟨text, s + 1⟩]
      else []
    else if language = "javascript" ∨ language = "typescript" then
      if kind = "import_statement" then [⟨text, s + 1⟩] else []
    else []) ++ extract_imports_list children language

def extract_imports_list (ts : List Tree) (language : String) : List ImportInfo :=
  match ts with
  | [] => []
  | t :: rest => extract_imports t language ++ extract_imports_list rest language

end

/-! The call-stack cost of that recursion: `extract_depth t` is the number of
nested `extract_functions` (equally `extract_classes` / `extract_imports`)
frames live when the walk reaches the deepest node of `t` — each call
contributes one frame and recurses into each child in turn. -/

mutual

def extract_depth (t : Tree) : Nat :=
  match t with
  | .node _ _ _ _ _ children => 1 + extract_depth_list children

def extract_depth_list (ts : List Tree) : Nat :=
  match ts with
  | [] => 0
  | t :: rest => max (extract_depth t) (extract_depth_list rest)

end

/-- A chain of `n + 1` nested nodes: nesting depth grows with `n`. -/
def nestChain : Nat → Tree
  | 0 => Tree.node "module" "" none 0 0 []
  | n + 1 => Tree.node "block" "" none 0 0 [nestChain n]

/-- `GitgeistASTParser.parse_file` up to the point where the file's bytes are
handed to the tree-sitter backend: the backend (file read + `parser.parse`)
is the external collaborator `readFile`; any exception it raises is caught
and becomes `none`. -/
def parse_file (tsAvailable : Bool) (parsers : List String)
    (readFile : String → Option Tree) (filepath : String) : Option (String × Tree) :=
  if !tsAvailable then none
  else
    match detect_language filepath with
    | none => none
    | some language =>
      if language ∉ parsers then none
      else
        match readFile filepath with
        | none => none
        | some t => some (language, t)

/-- `GitgeistASTParser.analyze_file_structure`. -/
def analyze_file_structure (tsAvailable : Bool) (parsers : List String)
    (readFile : String → Option Tree) (filepath : String) : Option FileStructure :=
  match parse_file tsAvailable parsers readFile filepath with
  | none => none
  | some (language, root) =>
    some { functions := extract_functions root language
           classes := extract_classes root language
           imports := extract_imports root language
           total_lines := root.endRow + 1 }

/-! ## The watcher (`GitgeistFileHandler`) -/

/-- `self.pending_changes.add(filepath)`: `pending_changes` is a Python set,
so adding an already-pending path changes nothing. -/
def addPending (l : List String) (p : String) : List String :=
  if p ∈ l then l else l ++ [p]

def snapLookup (snaps : List (String × FileStructure)) (p : String) :
    Option FileStructure :=
  (snaps.find? (fun e => e.1 = p)).map (·.2)

def snapUpdate (snaps : List (String × FileStructure)) (p : String)
    (st : FileStructure) : List (String × FileStructure) :=
  if (snaps.find? (fun e => e.1 = p)).isSome then
    snaps.map (fun e => if e.1 = p then (p, st) else e)
  else snaps ++ [(p, st)]

def snapErase (snaps : List (String × FileStructure)) (p : String) :
    List (String × FileStructure) :=
  snaps.filter (fun e => decide (e.1 ≠ p))

/-- The fields of the `analysis` dictionary of `analyze_file_change` that the
rest of the system reads. -/
structure WAnalysis where
  ignored : Bool
  language : Option String
  semantic_changes : Option WSemanticChanges
deriving Repr

/-- `GitgeistFileHandler.analyze_file_change` (watcher.py lines 45-85),
returning the analysis together with the updated snapshot cache: a diff is
computed only when `filepath in self.file_snapshots` and the current parse
succeeded, and the snapshot is replaced only when the current parse
succeeded. -/
def analyze_file_change (ignore : String → Bool) (tsAvailable : Bool)
    (parsers : List String) (readFile : String → Option Tree)
    (snaps : List (String × FileStructure)) (filepath : String) :
    WAnalysis × List (String × FileStructure) :=
  if ignore filepath then
    ({ ignored := true, language := none, semantic_changes := none }, snaps)
  else
    match detect_language filepath with
    | none => ({ ignored := false, language := none, semantic_changes := none }, snaps)
    | some lang =>
      let current := analyze_file_structure tsAvailable parsers readFile filepath
      let sc :=
        match snapLookup snaps filepath, current with
        | some old, some cur => some (watcher_compare_structures old cur)
        | _, _ => none
      let snaps' :=
        match current with
        | some cur => snapUpdate snaps filepath cur
        | none => snaps
      ({ ignored := false, language := some lang, semantic_changes := sc }, snaps')

/-- The handler state mutated by `_handle_file_change` / `on_deleted`. -/
structure HandlerState where
  pending : List String
  lastChange : Nat
  snapshots : List (String × FileStructure)
deriving Repr

/-- `_handle_file_change`: add the path to `pending_changes`, stamp
`last_change_time`, run the immediate analysis (which may replace the
snapshot); scheduling of `_check_for_commit` is modelled by `stepW` below. -/
def handle_file_change (ignore : String → Bool) (tsAvailable : Bool)
    (parsers : List String) (readFile : String → Option Tree)
    (st : HandlerState) (path : String) (now : Nat) : HandlerState :=
  let snaps' := (analyze_file_change ignore tsAvailable parsers readFile st.snapshots path).2
  { pending := addPending st.pending path, lastChange := now, snapshots := snaps' }

/-- `on_deleted`: for a non-directory event, `_handle_file_change` runs first
(adding the path to the pending set), then the path's snapshot is removed. -/
def on_deleted (ignore : String → Bool) (tsAvailable : Bool)
    (parsers : List String) (readFile : String → Option Tree)
    (st : HandlerState) (isDirectory : Bool) (path : String) (now : Nat) :
    HandlerState :=
  if isDirectory then st
  else
    let st1 := handle_file_change ignore tsAvailable parsers readFile st path now
    { st1 with snapshots := snapErase st1.snapshots path }

/-! ## The debounce scheduler

Each `_handle_file_change(p)` at time `t` records the event (pending set,
`last_change_time := t`) and schedules `_check_for_commit`, which sleeps
`T = debounce_delay` and wakes at `t + T`; the woken check fires a batch iff
`now - last_change_time >= T`, and clears the pending set whenever that time
test passes (firing additionally needs a nonempty pending set and
`auto_commit`). The two kinds of occurrences are interleaved on one timeline
in time order; a woken check at time `t` runs after an event stamped `t`. -/

structure WatchState where
  pending : List String
  lastChange : Nat
deriving Repr, DecidableEq

inductive FsEv where
  | ev (t : Nat) (path : String)
  | chk (t : Nat)
deriving Repr, DecidableEq

def evKey : FsEv → Nat
  | .ev t _ => 2 * t
  | .chk t => 2 * t + 1

def stepW (T : Nat) (autoCommit : Bool) (st : WatchState) (e : FsEv) :
    WatchState × Option (Nat × List String) :=
  match e with
  | .ev t p => (⟨addPending st.pending p, t⟩, none)
  | .chk t =>
    if st.lastChange + T ≤ t then
      (⟨[], st.lastChange⟩,
        if st.pending ≠ [] ∧ autoCommit then some (t, st.pending) else none)
    else (st, none)

def runW (T : Nat) (autoCommit : Bool) :
    WatchState → List FsEv → WatchState × List (Nat × List String)
  | st, [] => (st, [])
  | st, e :: es =>
    let s := stepW T autoCommit st e
    let r := runW T autoCommit s.1 es
    (r.1, (match s.2 with | some f => [f] | none => []) ++ r.2)

/-- The timeline generated by events `(tᵢ, pᵢ)` with quiet period `T`: every
event occurrence and the check it schedules at `tᵢ + T`, in time order
(events before checks at equal times). -/
def timelineOf (T : Nat) (evs : List (Nat × String)) : List FsEv :=
  List.insertionSort (fun a b => evKey a ≤ evKey b)
    ((evs.map fun e => FsEv.ev e.1 e.2) ++ (evs.map fun e => FsEv.chk (e.1 + T)))

/-! ## The memory store (`GitgeistMemory`, vector_store.py)

A row of the `commits` table. `files_changed` and `semantic_changes` hold
their `json.dumps` serialisations, opaque here; the embedding column holds
the vector the external `SentenceTransformer.encode` produced for the
commit's text, idealised as exact rationals. -/
structure CRow where
  hash : String
  message : String
  files_changed : String
  semantic_changes : String
  embedding : List ℚ
  timestamp : ℚ
deriving Repr, DecidableEq

/-- A float similarity value: either a real number or IEEE NaN. -/
inductive Sim where
  | nan
  | val (q : ℚ)
deriving Repr, DecidableEq

/-- `np.dot` on same-length vectors. -/
def dotQ : List ℚ → List ℚ → ℚ
  | a :: as, b :: bs => a * b + dotQ as bs
  | _, _ => 0

/-- `np.dot(q, r) / (np.linalg.norm(q) * np.linalg.norm(r))`, with the norm
function abstracted as `normF` (the claims below constrain it no further
than the code does).  When the denominator is zero, one of the vectors is
all-zero, so the numerator is zero too and the IEEE division `0.0 / 0.0`
yields NaN — numpy emits a RuntimeWarning but raises no exception. -/
def cosineSim (normF : List ℚ → ℚ) (q r : List ℚ) : Sim :=
  if normF q * normF r = 0 then Sim.nan
  else Sim.val (dotQ q r / (normF q * normF r))

/-- One entry of the `results` list of `find_similar_commits`. -/
structure CResult where
  hash : String
  message : String
  files_changed : String
  semantic_changes : String
  similarity : Sim
deriving Repr, DecidableEq

def toResult (normF : List ℚ → ℚ) (qe : List ℚ) (r : CRow) : CResult :=
  { hash := r.hash, message := r.message, files_changed := r.files_changed,
    semantic_changes := r.semantic_changes,
    similarity := cosineSim normF qe r.embedding }

/-- Float comparison on non-NaN values; the NaN cases are chosen to keep the
relation a total preorder (the theorems that use sorting are scoped to
NaN-free inputs, where Python's comparisons agree with this). -/
def Sim.le : Sim → Sim → Prop
  | .nan, _ => True
  | .val _, .nan => False
  | .val x, .val y => x ≤ y

instance : DecidableRel Sim.le := fun a b =>
  match a, b with
  | .nan, _ => isTrue trivial
  | .val _, .nan => isFalse (fun h => h)
  | .val x, .val y => inferInstanceAs (Decidable (x ≤ y))

/-- `ORDER BY timestamp DESC`. -/
def byTsDesc (a b : CRow) : Prop := b.timestamp ≤ a.timestamp

instance : DecidableRel byTsDesc := fun a b =>
  inferInstanceAs (Decidable (b.timestamp ≤ a.timestamp))

/-- `results.sort(key=lambda x: x["similarity"], reverse=True)`. -/
def bySimDesc (a b : CResult) : Prop := Sim.le b.similarity a.similarity

instance : DecidableRel bySimDesc := fun a b =>
  inferInstanceAs (Decidable (Sim.le b.similarity a.similarity))

/-- The same descending-similarity order seen on the underlying rows. -/
def rowSimDesc (normF : List ℚ → ℚ) (qe : List ℚ) (a b : CRow) : Prop :=
  Sim.le (cosineSim normF qe b.embedding) (cosineSim normF qe a.embedding)

instance (normF : List ℚ → ℚ) (qe : List ℚ) : DecidableRel (rowSimDesc normF qe) :=
  fun a b =>
    inferInstanceAs
      (Decidable (Sim.le (cosineSim normF qe b.embedding) (cosineSim normF qe a.embedding)))

/-- `GitgeistMemory.find_similar_commits` (vector_store.py lines 106-138):
scan the 50 most recent rows (`ORDER BY timestamp DESC LIMIT 50`), attach a
cosine similarity to each, sort by descending similarity and keep the first
`limit`. Both sorts are stable sorts (SQLite's ORDER BY is modelled on rows
with pairwise-distinct timestamps in the theorems below, where every sort
agrees; Python's `list.sort` is stable), modelled by `insertionSort`, a
stable sort. The query's embedding `qe` is produced by the external encoder. -/
def find_similar_commits (normF : List ℚ → ℚ) (qe : List ℚ) (rows : List CRow)
    (limit : Nat) : List CResult :=
  let window := (List.insertionSort byTsDesc rows).take 50
  let results := window.map (toResult normF qe)
  (List.insertionSort bySimDesc results).take limit

/-- The rows backing the returned results, in the order they are returned. -/
def selectedRows (normF : List ℚ → ℚ) (qe : List ℚ) (rows : List CRow)
    (limit : Nat) : List CRow :=
  (List.insertionSort (rowSimDesc normF qe)
    ((List.insertionSort byTsDesc rows).take 50)).take limit

/-- `INSERT OR REPLACE INTO commits ... (hash UNIQUE)`: rows conflicting on
`hash` are deleted and the new row is inserted. -/
def upsertRow (db : List CRow) (r : CRow) : List CRow :=
  db.filter (fun x => decide (x.hash ≠ r.hash)) ++ [r]

/-- The body of `GitgeistMemory.store_commit` seen through its `try` block:
either the durable write succeeds and the table is upserted, or the backend
raises (`writeFails`). The embedding/text construction feeding the row is
the external encoder's business and is part of `r`. -/
def store_commit_except (writeFails : Bool) (db : List CRow) (r : CRow) :
    Except String (List CRow) :=
  if writeFails then Except.error "database write failed"
  else Except.ok (upsertRow db r)

/-- `store_commit` as its caller sees it: the `except` clause catches every
exception and only logs it, and the function body ends without a `return`,
so the caller receives Python's `None` (here `Unit.unit`) on success and
failure alike. -/
def store_commit_run (writeFails : Bool) (db : List CRow) (r : CRow) :
    List CRow × Unit :=
  match store_commit_except writeFails db r with
  | Except.ok db' => (db', Unit.unit)
  | Except.error _ => (db, Unit.unit)

/-! ## Order facts used by the sorting model -/

def simLe_total : ∀ a b : Sim, Sim.le a b ∨ Sim.le b a
  | .nan, _ => Or.inl trivial
  | .val _, .nan => Or.inr trivial
  | .val x, .val y => le_total x y

def simLe_trans : ∀ a b c : Sim, Sim.le a b → Sim.le b c → Sim.le a c
  | .nan, _, _, _, _ => trivial
  | .val _, .nan, _, h, _ => h.elim
  | .val _, .val _, .nan, _, h => h.elim
  | .val _, .val _, .val _, h1, h2 => le_trans h1 h2

def simLe_refl : ∀ a : Sim, Sim.le a a
  | .nan => trivial
  | .val _ => le_refl _

instance : IsTotal CRow byTsDesc := ⟨fun a b => le_total b.timestamp a.timestamp⟩

instance : IsTrans CRow byTsDesc := ⟨fun _ _ _ h1 h2 => le_trans h2 h1⟩

instance : IsTotal CResult bySimDesc :=
  ⟨fun a b => simLe_total b.similarity a.similarity⟩

instance : IsTrans CResult bySimDesc :=
  ⟨fun _ _ _ h1 h2 => simLe_trans _ _ _ h2 h1⟩

instance (normF : List ℚ → ℚ) (qe : List ℚ) : IsTotal CRow (rowSimDesc normF qe) :=
  ⟨fun a b => simLe_total (cosineSim normF qe b.embedding) (cosineSim normF qe a.embedding)⟩

instance (normF : List ℚ → ℚ) (qe : List ℚ) : IsTrans CRow (rowSimDesc normF qe) :=
  ⟨fun _ _ _ h1 h2 => simLe_trans _ _ _ h2 h1⟩

/-! ## Concrete inputs used by the closed theorems below -/

/-- Old version: function `f` on lines 1-3, class `C` on lines 1-3. -/
def c1old : FileStructure :=
  { functions := [⟨"f", 1, 3⟩], classes := [⟨"C", 1, 3⟩], imports := [], total_lines := 3 }

/-- New version: `f` now ends on line 5, `C` now spans lines 2-4. -/
def c1new : FileStructure :=
  { functions := [⟨"f", 1, 5⟩], classes := [⟨"C", 2, 4⟩], imports := [], total_lines := 5 }

def ign0 : String → Bool := fun _ => false

def allParsers : List String := ["python", "javascript", "typescript"]

/-- A parsed module containing a single `def f` on its first two lines. -/
def pyFuncTree : Tree :=
  Tree.node "module" "def f(): pass" none 0 2
    [Tree.node "function_definition" "def f(): pass" (some "f") 0 1 []]

def rf0 : String → Option Tree := fun _ => some pyFuncTree

/-- The structure `analyze_file_structure` extracts from `pyFuncTree`. -/
def pyStructure : FileStructure :=
  { functions := [⟨"f", 1, 2⟩], classes := [], imports := [], total_lines := 3 }

/-- Debounce scenario: events for one batch at times 0, 2, 4. -/
def scen1 : List (Nat × String) := [(0, "a"), (2, "b"), (4, "c")]

/-- Debounce scenario: events at times 0 and 7. -/
def scen2 : List (Nat × String) := [(0, "a"), (7, "b")]

/-- A concrete stand-in for the abstract norm `normF`: the sum of squares.
It vanishes exactly on the all-zero vector, like the Euclidean norm. -/
def normSq (v : List ℚ) : ℚ := dotQ v v

def row0 : CRow :=
  { hash := "abc123", message := "init", files_changed := "[]",
    semantic_changes := "{}", embedding := [1], timestamp := 1 }

def r5a : CRow :=
  { hash := "h1", message := "m1", files_changed := "[]",
    semantic_changes := "{}", embedding := [1], timestamp := 2 }

def r5b : CRow :=
  { hash := "h2", message := "m2", files_changed := "[]",
    semantic_changes := "{}", embedding := [2], timestamp := 1 }

def rec1 : CRow :=
  { hash := "h", message := "first", files_changed := "[]",
    semantic_changes := "{}", embedding := [1], timestamp := 1 }

def rec2 : CRow :=
  { hash := "h", message := "second", files_changed := "[\x22a.py\x22]",
    semantic_changes := "{}", embedding := [2], timestamp := 2 }

/-! # Helper lemmas -/

theorem mem_dictKeys {fs : List FuncInfo} {n : String} :
    n ∈ dictKeys fs ↔ n ∈ fs.map (·.name) :=
  List.mem_dedup

theorem dictLookup_isSome_iff {fs : List FuncInfo} {n : String} :
    (dictLookup fs n).isSome ↔ n ∈ fs.map (·.name) := by
  unfold dictLookup
  rw [List.find?_isSome]
  constructor
  · rintro ⟨x, hx, hpx⟩
    exact List.mem_map.mpr ⟨x, List.mem_reverse.mp hx, decide_eq_true_eq.mp hpx⟩
  · intro hm
    rcases List.mem_map.mp hm with ⟨x, hx, hxn⟩
    exact ⟨x, List.mem_reverse.mpr hx, decide_eq_true hxn⟩

theorem modifiedCheck_eq_true_iff {old new : List FuncInfo} {n : String} :
    modifiedCheck old new n = true ↔
      ∃ o f, dictLookup old n = some o ∧ dictLookup new n = some f ∧
        (o.start_line ≠ f.start_line ∨ o.end_line ≠ f.end_line) := by
  unfold modifiedCheck
  cases ho : dictLookup old n with
  | none => simp [ho]
  | some o =>
    cases hf : dictLookup new n with
    | none => simp [ho, hf]
    | some f => simp [ho, hf, pairDiffers]

theorem wModifiedCheck_eq_true_iff {old new : List FuncInfo} {n : String} :
    wModifiedCheck old new n = true ↔
      ∃ o f, dictLookup old n = some o ∧ dictLookup new n = some f ∧
        o.start_line ≠ f.start_line := by
  unfold wModifiedCheck
  cases ho : dictLookup old n with
  | none => simp [ho]
  | some o =>
    cases hf : dictLookup new n with
    | none => simp [ho, hf]
    | some f => simp [ho, hf]

theorem mem_functions_modified_iff (old new : FileStructure) (n : String) :
    n ∈ (compare_structures old new).functions_modified ↔
      ∃ o f, dictLookup old.functions n = some o ∧ dictLookup new.functions n = some f ∧
        (o.start_line ≠ f.start_line ∨ o.end_line ≠ f.end_line) := by
  constructor
  · intro h
    simp only [compare_structures, List.mem_filter, Bool.and_eq_true, decide_eq_true_eq] at h
    exact modifiedCheck_eq_true_iff.mp h.2.2
  · intro h
    have h1 : (dictLookup old.functions n).isSome := by
      rcases h with ⟨o, f, ho, _, _⟩; simp [ho]
    have h2 : (dictLookup new.functions n).isSome := by
      rcases h with ⟨o, f, _, hf, _⟩; simp [hf]
    simp only [compare_structures, List.mem_filter, Bool.and_eq_true, decide_eq_true_eq]
    exact ⟨mem_dictKeys.mpr (dictLookup_isSome_iff.mp h1),
      mem_dictKeys.mpr (dictLookup_isSome_iff.mp h2), modifiedCheck_eq_true_iff.mpr h⟩

theorem w_mem_functions_modified_iff (old new : FileStructure) (n : String) :
    n ∈ (watcher_compare_structures old new).functions_modified ↔
      ∃ o f, dictLookup old.functions n = some o ∧ dictLookup new.functions n = some f ∧
        o.start_line ≠ f.start_line := by
  constructor
  · intro h
    simp only [watcher_compare_structures, List.mem_filter, Bool.and_eq_true,
      decide_eq_true_eq] at h
    exact wModifiedCheck_eq_true_iff.mp h.2.2
  · intro h
    have h1 : (dictLookup old.functions n).isSome := by
      rcases h with ⟨o, f, ho, _, _⟩; simp [ho]
    have h2 : (dictLookup new.functions n).isSome := by
      rcases h with ⟨o, f, _, hf, _⟩; simp [hf]
    simp only [watcher_compare_structures, List.mem_filter, Bool.and_eq_true,
      decide_eq_true_eq]
    exact ⟨mem_dictKeys.mpr (dictLookup_isSome_iff.mp h1),
      mem_dictKeys.mpr (dictLookup_isSome_iff.mp h2), wModifiedCheck_eq_true_iff.mpr h⟩

/-! # Claim C1 -/

/-- C1: the claim reads both `_compare_structures` implementations as
computing, for functions and classes alike, the set of names present in both
versions whose `(start_line, end_line)` pair changed.  It fails on both:
the ast_parser.py version never fills `classes_modified`, and the watcher.py
version compares only `start_line` (and has no `classes_modified` at all).
Here class `C` moves from lines (1,3) to (2,4) yet is not reported modified,
and function `f` keeps `start_line` while `end_line` moves from 3 to 5 yet
the watcher does not report it modified. -/
theorem C1_counterexample :
    (dictLookup c1old.classes "C" = some ⟨"C", 1, 3⟩ ∧
      dictLookup c1new.classes "C" = some ⟨"C", 2, 4⟩ ∧
      pairDiffers ⟨"C", 1, 3⟩ ⟨"C", 2, 4⟩ = true ∧
      "C" ∉ (compare_structures c1old c1new).classes_modified) ∧
    (dictLookup c1old.functions "f" = some ⟨"f", 1, 3⟩ ∧
      dictLookup c1new.functions "f" = some ⟨"f", 1, 5⟩ ∧
      pairDiffers ⟨"f", 1, 3⟩ ⟨"f", 1, 5⟩ = true ∧
      "f" ∉ (watcher_compare_structures c1old c1new).functions_modified) := by
  decide

/-- C1 (amended): `functions_modified` of the ast_parser.py diff contains
exactly the names bound in both dictionaries whose `(start_line, end_line)`
pair differs; its `classes_modified` is always empty; and the watcher.py
diff's `functions_modified` contains exactly the common names whose
`start_line` alone differs (it has no class-modification entry). -/
theorem C1_modified_sets_amended (old new : FileStructure) (n : String) :
    (n ∈ (compare_structures old new).functions_modified ↔
      ∃ o f, dictLookup old.functions n = some o ∧ dictLookup new.functions n = some f ∧
        (o.start_line ≠ f.start_line ∨ o.end_line ≠ f.end_line)) ∧
    (compare_structures old new).classes_modified = [] ∧
    (n ∈ (watcher_compare_structures old new).functions_modified ↔
      ∃ o f, dictLookup old.functions n = some o ∧ dictLookup new.functions n = some f ∧
        o.start_line ≠ f.start_line) :=
  ⟨mem_functions_modified_iff old new n, rfl, w_mem_functions_modified_iff old new n⟩

/-! # Claim C2 -/

/-- C2: for a file with no prior snapshot the claim expects the diff to
report every declared function as added — but `analyze_file_change` performs
no diff at all in that case: on `a.py`, whose parse yields a structure
declaring function `f`, the analysis leaves `semantic_changes = None`. -/
theorem C2_counterexample :
    analyze_file_structure true allParsers rf0 "a.py" = some pyStructure ∧
    pyStructure.functions.map (·.name) = ["f"] ∧
    (analyze_file_change ign0 true allParsers rf0 [] "a.py").1.semantic_changes = none := by
  have hdet : detect_language "a.py" = some "python" := by decide
  have hparse : parse_file true allParsers rf0 "a.py" = some ("python", pyFuncTree) := by
    simp [parse_file, hdet, allParsers, rf0]
  have hana : analyze_file_structure true allParsers rf0 "a.py" = some pyStructure := by
    simp [analyze_file_structure, hparse, pyFuncTree, pyStructure, Tree.endRow,
      extract_functions, extract_functions_list, extract_classes, extract_classes_list,
      extract_imports, extract_imports_list, js_function_name]
  refine ⟨hana, rfl, ?_⟩
  simp [analyze_file_change, ign0, hdet, hana, snapLookup]

/-- C2 (amended): the watcher performs no diff when a file has no cached
snapshot (`semantic_changes` stays `None`); where a new-file diff is
performed (git_handler.py substitutes empty old content, giving the empty
structure), the comparison does report every declared function and class as
added, nothing as removed or modified, and `imports_changed` exactly when
the new snapshot has at least one import. -/
theorem C2_new_file_amended :
    (∀ (ign : String → Bool) (ts : Bool) (parsers : List String)
      (readFile : String → Option Tree) (snaps : List (String × FileStructure))
      (path : String), snapLookup snaps path = none →
      (analyze_file_change ign ts parsers readFile snaps path).1.semantic_changes = none) ∧
    (∀ (new : FileStructure) (n : String),
      (n ∈ (compare_structures emptyStructure new).functions_added ↔
        n ∈ new.functions.map (·.name)) ∧
      (n ∈ (compare_structures emptyStructure new).classes_added ↔
        n ∈ new.classes.map (·.name)) ∧
      (compare_structures emptyStructure new).functions_removed = [] ∧
      (compare_structures emptyStructure new).functions_modified = [] ∧
      (compare_structures emptyStructure new).classes_removed = [] ∧
      (compare_structures emptyStructure new).classes_modified = [] ∧
      ((compare_structures emptyStructure new).imports_changed = true ↔
        new.imports ≠ [])) := by
  constructor
  · intro ign ts parsers readFile snaps path h
    unfold analyze_file_change
    split
    · rfl
    · cases hdet : detect_language path with
      | none => rfl
      | some lang =>
        cases hcur : analyze_file_structure ts parsers readFile path with
        | none => simp [h, hcur]
        | some cur => simp [h, hcur]
  · intro new n
    refine ⟨?_, ?_, rfl, rfl, rfl, rfl, ?_⟩
    · simp [compare_structures, emptyStructure, dictKeys, List.mem_dedup]
    · simp [compare_structures, emptyStructure, dictKeys, List.mem_dedup]
    · simp only [compare_structures, emptyStructure, sameStrSet]
      constructor
      · intro h
        intro hnil
        simp [hnil] at h
      · intro h
        simp only [Bool.not_eq_eq_eq_not, Bool.not_true, Bool.and_eq_false_iff]
        right
        simp only [decide_eq_false_iff_not, Classical.not_forall]
        rcases List.exists_mem_of_ne_nil _ h with ⟨x, hx⟩
        exact ⟨x.statement, by simp [List.mem_map]; exact ⟨x, hx, rfl⟩⟩

/-! # Claim C3 -/

/-- C3: with quiet period `T = 5`, events at times 0, 2, 4 fire exactly one
batch, at time 9 = 4 + 5 (the earlier checks at 5 and 7 find the quiet
period not yet elapsed); events at times 0 and 7 fire two batches (at 5 and
at 12); and in general `stepW` emits a batch only on a woken check whose
time is at least `last_change_time + T`, the batch being the entire pending
set, which is then cleared. -/
theorem C3_debounce_property :
    (runW 5 true ⟨[], 0⟩ (timelineOf 5 scen1)).2 = [(9, ["a", "b", "c"])] ∧
    (runW 5 true ⟨[], 0⟩ (timelineOf 5 scen2)).2 = [(5, ["a"]), (12, ["b"])] ∧
    (∀ (T : Nat) (ac : Bool) (st st' : WatchState) (e : FsEv) (t : Nat)
      (batch : List String), stepW T ac st e = (st', some (t, batch)) →
      e = FsEv.chk t ∧ st.lastChange + T ≤ t ∧ batch = st.pending ∧
      st'.pending = []) := by
  refine ⟨by decide, by decide, ?_⟩
  intro T ac st st' e t batch h
  cases e with
  | ev t0 p => simp [stepW] at h
  | chk t0 =>
    simp only [stepW] at h
    split at h
    · split at h
      · simp only [Prod.mk.injEq, Option.some.injEq] at h
        obtain ⟨hst, ht, hb⟩ := h
        subst ht
        exact ⟨rfl, by assumption, hb.symm, by rw [← hst]⟩
      · simp at h
    · simp at h

/-! # Claim C6 -/

/-- C6: `store_commit` writes through `INSERT OR REPLACE` against the
`UNIQUE` commit hash: after two writes with the same hash, exactly one row
with that hash remains and it is the later record; an upsert into a
duplicate-free table leaves it duplicate-free. -/
theorem C6_upsert_by_id (db : List CRow) (r1 r2 : CRow) (h : r1.hash = r2.hash) :
    (upsertRow (upsertRow db r1) r2).filter (fun x => decide (x.hash = r2.hash)) = [r2] ∧
    (upsertRow (upsertRow db r1) r2).length = (upsertRow db r1).length ∧
    ∀ r : CRow, (db.map (·.hash)).Nodup → ((upsertRow db r).map (·.hash)).Nodup := by
  have hsecond :
      upsertRow (upsertRow db r1) r2 =
        db.filter (fun x => decide (x.hash ≠ r1.hash)) ++ [r2] := by
    have hAfilter :
        (db.filter (fun x => decide (x.hash ≠ r1.hash))).filter
          (fun x => decide (x.hash ≠ r2.hash)) =
          db.filter (fun x => decide (x.hash ≠ r1.hash)) := by
      rw [List.filter_eq_self]
      intro a ha
      rcases List.mem_filter.mp ha with ⟨_, hne⟩
      simp only [decide_eq_true_eq] at hne ⊢
      rw [← h]
      exact hne
    calc upsertRow (upsertRow db r1) r2
        = (db.filter (fun x => decide (x.hash ≠ r1.hash)) ++ [r1]).filter
            (fun x => decide (x.hash ≠ r2.hash)) ++ [r2] := rfl
      _ = db.filter (fun x => decide (x.hash ≠ r1.hash)) ++ [r2] := by
          rw [List.filter_append, hAfilter]
          simp [h]
  refine ⟨?_, ?_, ?_⟩
  case refine_2 =>
    rw [hsecond]
    simp [upsertRow]
  · have h1 : ∀ l : List CRow,
        (l.filter (fun x => decide (x.hash ≠ r2.hash))).filter
          (fun x => decide (x.hash = r2.hash)) = [] := by
      intro l
      rw [List.filter_eq_nil_iff]
      intro a ha
      rcases List.mem_filter.mp ha with ⟨_, hne⟩
      simp only [decide_eq_true_eq] at hne ⊢
      exact hne
    calc (upsertRow (upsertRow db r1) r2).filter (fun x => decide (x.hash = r2.hash))
        = ((upsertRow db r1).filter (fun x => decide (x.hash ≠ r2.hash))
            ++ [r2]).filter (fun x => decide (x.hash = r2.hash)) := rfl
      _ = [r2] := by
          rw [List.filter_append, h1 (upsertRow db r1)]
          simp
  · intro r hnd
    unfold upsertRow
    rw [List.map_append, List.nodup_append]
    refine ⟨hnd.sublist ((List.filter_sublist db).map (·.hash)), by simp, ?_⟩
    intro a ha hb
    simp only [List.mem_map, List.mem_singleton] at ha hb
    rcases ha with ⟨x, hx, rfl⟩
    rcases List.mem_filter.mp hx with ⟨_, hne⟩
    simp only [decide_eq_true_eq] at hne
    rcases hb with ⟨y, hy, hyx⟩
    have hxr : x.hash = r.hash := by rw [← hyx, hy]
    exact hne hxr

/-- C6 witness: storing `rec1` then `rec2` (same hash `"h"`) into the empty
table leaves exactly the row `rec2` under that hash. -/
theorem C6_upsert_witness :
    (upsertRow (upsertRow [] rec1) rec2).filter (fun x => decide (x.hash = rec2.hash))
      = [rec2] ∧
    (upsertRow (upsertRow [] rec1) rec2).length = (upsertRow [] rec1).length ∧
    ∀ r : CRow, (([] : List CRow).map (·.hash)).Nodup →
      ((upsertRow [] r).map (·.hash)).Nodup :=
  C6_upsert_by_id [] rec1 rec2 rfl

/-! # Claim C7 -/

/-- C7: the claim says a failing durable write is reported to the caller via
a failure result value.  It is not: `store_commit` catches the exception,
logs it, and returns Python's `None` — exactly what it returns on success —
so the caller cannot tell the failing run from a successful one. -/
theorem C7_counterexample :
    (store_commit_run true [] row0).2 = (store_commit_run false [] row0).2 ∧
    (store_commit_run true [] row0).1 = [] :=
  ⟨rfl, rfl⟩

/-- C7 (amended): a failing durable write is caught inside `store_commit`:
no exception reaches the caller and the commit flow continues, but the
caller receives no failure indication — the function returns `None` on
success and failure alike; the record is simply not persisted. -/
theorem C7_store_failure_amended (writeFails : Bool) (db : List CRow) (r : CRow) :
    (store_commit_run writeFails db r).2 = Unit.unit ∧
    (store_commit_run true db r).1 = db ∧
    (store_commit_run false db r).1 = upsertRow db r :=
  ⟨rfl, rfl, rfl⟩

/-! # Claim C8 -/

theorem extract_depth_nestChain (n : Nat) : extract_depth (nestChain n) = n + 1 := by
  induction n with
  | zero => rfl
  | succ n ih =>
    simp [nestChain, extract_depth, extract_depth_list, ih]
    omega

/-- C8: the claim says extraction walks the tree with an explicit work-stack
so that call depth is bounded independently of source nesting.  The source
recurses into `node.children` directly, and no bound on the nested call
depth `extract_depth` exists: a nesting chain of depth `b + 1` exceeds any
candidate bound `b`. -/
theorem C8_counterexample :
    ¬ ∃ bound : Nat, ∀ t : Tree, extract_depth t ≤ bound := by
  rintro ⟨b, hb⟩
  have h := hb (nestChain b)
  rw [extract_depth_nestChain] at h
  omega

/-- C8 (amended): `extract_functions` / `extract_classes` / `extract_imports`
traverse by direct call recursion into children, so the nested call depth
grows linearly with the nesting depth of the source: it is `n + 1` on a
chain of `n + 1` nested nodes, exceeding every fixed bound. -/
theorem C8_recursion_depth_amended :
    (∀ n : Nat, extract_depth (nestChain n) = n + 1) ∧
    (∀ bound : Nat, bound < extract_depth (nestChain bound)) :=
  ⟨extract_depth_nestChain, fun b => by rw [extract_depth_nestChain]; omega⟩

/-! # Claim C9 -/

/-- C9: for a path whose lower-cased extension is none of `.py`, `.js`,
`.jsx`, `.ts`, `.tsx`, the extractor's own `detect_language` is `None`
(it consults only the extension map — never content or shebang, unlike the
separate `LanguageDetector`), so `parse_file` and `analyze_file_structure`
return `None` without attempting extraction, whatever the parser backend
would have produced. -/
theorem C9_unsupported_extension (filepath : String) (tsAvailable : Bool)
    (parsers : List String) (readFile : String → Option Tree)
    (h : lowerStr (suffixOf filepath) ∉ [".py", ".js", ".jsx", ".ts", ".tsx"]) :
    detect_language filepath = none ∧
    parse_file tsAvailable parsers readFile filepath = none ∧
    analyze_file_structure tsAvailable parsers readFile filepath = none := by
  have hdet : detect_language filepath = none := by
    simp only [List.mem_cons, List.not_mem_nil, or_false, not_or] at h
    obtain ⟨h1, h2, h3, h4, h5⟩ := h
    simp [detect_language, ext_map, List.lookup, beq_eq_false_iff_ne.mpr h1,
      beq_eq_false_iff_ne.mpr h2, beq_eq_false_iff_ne.mpr h3,
      beq_eq_false_iff_ne.mpr h4, beq_eq_false_iff_ne.mpr h5]
  have hparse : parse_file tsAvailable parsers readFile filepath = none := by
    cases tsAvailable <;> simp [parse_file, hdet]
  exact ⟨hdet, hparse, by simp [analyze_file_structure, hparse]⟩

/-- C9 witness: a Ruby file. `LanguageDetector.EXTENSIONS` maps `.rb` to
`ruby`, but the extractor still yields `None`. -/
theorem C9_unsupported_extension_witness :
    detect_language "script.rb" = none ∧
    parse_file true allParsers rf0 "script.rb" = none ∧
    analyze_file_structure true allParsers rf0 "script.rb" = none :=
  C9_unsupported_extension "script.rb" true allParsers rf0 (by decide)

/-! # Claim C10 -/

theorem mem_addPending_self (l : List String) (p : String) : p ∈ addPending l p := by
  unfold addPending
  split
  · assumption
  · simp

theorem mem_addPending_mono {l : List String} {q : String} (p : String) (h : q ∈ l) :
    q ∈ addPending l p := by
  unfold addPending
  split
  · exact h
  · simp [h]

theorem snapLookup_snapErase (snaps : List (String × FileStructure)) (p : String) :
    snapLookup (snapErase snaps p) p = none := by
  have hfind : (snapErase snaps p).find? (fun e => e.1 = p) = none := by
    rw [List.find?_eq_none]
    intro x hx
    rcases List.mem_filter.mp hx with ⟨_, hne⟩
    simp only [decide_eq_true_eq] at hne ⊢
    exact hne
  simp [snapLookup, hfind]

/-- C10: a deletion event on a non-directory path runs `_handle_file_change`
first — putting the path into the pending set and stamping the change time —
and then evicts the path's snapshot; the path survives later events into the
batch that a sufficiently late check drains (the drained batch is the whole
pending set). -/
theorem C10_deletion_eviction (ignore : String → Bool) (tsAvailable : Bool)
    (parsers : List String) (readFile : String → Option Tree)
    (st : HandlerState) (path : String) (now : Nat) :
    path ∈ (on_deleted ignore tsAvailable parsers readFile st false path now).pending ∧
    snapLookup
      (on_deleted ignore tsAvailable parsers readFile st false path now).snapshots
      path = none ∧
    (∀ p2 now2, path ∈ (handle_file_change ignore tsAvailable parsers readFile
      (on_deleted ignore tsAvailable parsers readFile st false path now) p2 now2).pending) ∧
    (∀ T t,
      (on_deleted ignore tsAvailable parsers readFile st false path now).lastChange + T ≤ t →
      (stepW T true
        ⟨(on_deleted ignore tsAvailable parsers readFile st false path now).pending,
         (on_deleted ignore tsAvailable parsers readFile st false path now).lastChange⟩
        (FsEv.chk t)).2 =
        some (t, (on_deleted ignore tsAvailable parsers readFile st false path now).pending)) := by
  have hpend :
      (on_deleted ignore tsAvailable parsers readFile st false path now).pending =
        addPending st.pending path := by
    simp [on_deleted, handle_file_change]
  have hmem : path ∈ (on_deleted ignore tsAvailable parsers readFile st false path now).pending := by
    rw [hpend]; exact mem_addPending_self _ _
  refine ⟨hmem, ?_, ?_, ?_⟩
  · have hsnap :
        (on_deleted ignore tsAvailable parsers readFile st false path now).snapshots =
          snapErase
            (handle_file_change ignore tsAvailable parsers readFile st path now).snapshots
            path := by
      simp [on_deleted]
    rw [hsnap]
    exact snapLookup_snapErase _ _
  · intro p2 now2
    exact mem_addPending_mono p2 hmem
  · intro T t hle
    have hne : (on_deleted ignore tsAvailable parsers readFile st false path now).pending ≠ [] :=
      List.ne_nil_of_mem hmem
    simp [stepW, hle, hne]

/-! # Claim C4 -/

theorem mem_find_similar {normF : List ℚ → ℚ} {qe : List ℚ} {rows : List CRow}
    {limit : Nat} {res : CResult} (h : res ∈ find_similar_commits normF qe rows limit) :
    ∃ r ∈ rows, res = toResult normF qe r := by
  unfold find_similar_commits at h
  have h1 := (List.take_sublist _ _).subset h
  rw [List.mem_insertionSort] at h1
  rcases List.mem_map.mp h1 with ⟨r, hr, rfl⟩
  have h2 := (List.take_sublist _ _).subset hr
  rw [List.mem_insertionSort] at h2
  exact ⟨r, h2, rfl⟩

/-- C4: the claim promises an empty result for a zero-norm embedding.  With
the zero-norm query `[0]` against a one-row store, `find_similar_commits`
instead returns that row with a NaN similarity: the `0.0/0.0` division
raises no exception (numpy only warns), so nothing reaches the `except`
branch that would return `[]`. -/
theorem C4_counterexample :
    find_similar_commits normSq [0] [row0] 5 ≠ [] ∧
    ∀ res ∈ find_similar_commits normSq [0] [row0] 5, res.similarity = Sim.nan := by
  have hval : find_similar_commits normSq [0] [row0] 5 = [toResult normSq [0] row0] := by
    simp [find_similar_commits, List.insertionSort, List.orderedInsert]
  have hsim : (toResult normSq [0] row0).similarity = Sim.nan := by
    simp [toResult, cosineSim, normSq, dotQ, row0]
  constructor
  · rw [hval]; simp
  · rw [hval]
    intro res hres
    rw [List.mem_singleton] at hres
    rw [hres, hsim]

/-- C4 (amended): an empty store does yield an empty result, but a zero-norm
embedding does not: each affected candidate's similarity is NaN and is
returned unfiltered, the result keeping its full length
`min(limit, min(50, #rows))` — nonempty whenever the store and the limit
are. -/
theorem C4_empty_store_nan_amended :
    (∀ (normF : List ℚ → ℚ) (qe : List ℚ) (limit : Nat),
      find_similar_commits normF qe [] limit = []) ∧
    (∀ (normF : List ℚ → ℚ) (qe : List ℚ) (rows : List CRow) (limit : Nat),
      normF qe = 0 →
      ∀ res ∈ find_similar_commits normF qe rows limit, res.similarity = Sim.nan) ∧
    (∀ (normF : List ℚ → ℚ) (qe : List ℚ) (rows : List CRow) (limit : Nat),
      (find_similar_commits normF qe rows limit).length =
        min limit (min 50 rows.length)) := by
  refine ⟨fun _ _ limit => by simp [find_similar_commits], ?_, ?_⟩
  · intro normF qe rows limit hq res hres
    rcases mem_find_similar hres with ⟨r, _, rfl⟩
    simp [toResult, cosineSim, hq]
  · intro normF qe rows limit
    unfold find_similar_commits
    simp [List.length_take, List.length_insertionSort, List.length_map]

/-! # Claim C5: stability of the similarity sort

Python's `list.sort` is stable; on candidates already in strictly descending
timestamp order, equal similarities therefore surface most-recent-first.
The lemmas below prove this for `insertionSort`, the stable sort used in the
model. -/

theorem sublist_pair_or_swap {α : Type} {a b : α} {l : List α} (ha : a ∈ l)
    (hb : b ∈ l) (hne : a ≠ b) : List.Sublist [a, b] l ∨ List.Sublist [b, a] l := by
  induction l with
  | nil => cases ha
  | cons x t ih =>
    rcases List.mem_cons.mp ha with rfl | ha'
    · have hb' : b ∈ t := by
        rcases List.mem_cons.mp hb with rfl | hb'
        · exact absurd rfl hne
        · exact hb'
      exact Or.inl (List.Sublist.cons₂ a (List.singleton_sublist.mpr hb'))
    · rcases List.mem_cons.mp hb with rfl | hb'
      · exact Or.inr (List.Sublist.cons₂ b (List.singleton_sublist.mpr ha'))
      · rcases ih ha' hb' with h | h
        · exact Or.inl (List.Sublist.cons x h)
        · exact Or.inr (List.Sublist.cons x h)

theorem nodup_pair_sublist_antisymm {α : Type} {a b : α} :
    ∀ {l : List α}, l.Nodup → List.Sublist [a, b] l → List.Sublist [b, a] l → a = b := by
  intro l
  induction l with
  | nil => intro _ hab _; exact absurd hab (by simp)
  | cons x t ih =>
    intro hnd hab hba
    obtain ⟨hx, hnd'⟩ := List.nodup_cons.mp hnd
    cases hab with
    | cons _ hab' =>
      cases hba with
      | cons _ hba' => exact ih hnd' hab' hba'
      | cons₂ _ hba' =>
        exact absurd (hab'.subset (by simp)) hx
    | cons₂ _ hab' =>
      cases hba with
      | cons _ hba' =>
        exact absurd (hba'.subset (by simp)) hx
      | cons₂ _ hba' => rfl

/-- A stable sort of a duplicate-free list that is already ordered by a
tie-breaking relation `s` keeps `s` within every equivalence class of the
sorting relation `r`. -/
theorem insertionSort_pairwise_stable {α : Type} (r : α → α → Prop) [DecidableRel r]
    [IsTotal α r] [IsTrans α r] (s : α → α → Prop) {l : List α}
    (hs : l.Pairwise s) (hnd : l.Nodup) :
    (List.insertionSort r l).Pairwise (fun a b => r a b ∧ (r b a → s a b)) := by
  rw [List.pairwise_iff_forall_sublist]
  intro a b hab
  have hsorted : r a b :=
    List.pairwise_iff_forall_sublist.mp (List.sorted_insertionSort r l) hab
  refine ⟨hsorted, ?_⟩
  intro hba
  have hndout : (List.insertionSort r l).Nodup :=
    ((List.perm_insertionSort r l).nodup_iff).mpr hnd
  have hne : a ≠ b := List.pairwise_iff_forall_sublist.mp hndout hab
  have hmem_a : a ∈ l := (List.mem_insertionSort r).mp (hab.subset (by simp))
  have hmem_b : b ∈ l := (List.mem_insertionSort r).mp (hab.subset (by simp))
  rcases sublist_pair_or_swap hmem_a hmem_b hne with h | h
  · exact List.pairwise_iff_forall_sublist.mp hs h
  · have hout : List.Sublist [b, a] (List.insertionSort r l) :=
      List.pair_sublist_insertionSort hba h
    exact absurd (nodup_pair_sublist_antisymm hndout hab hout) hne

/-- C5: `find_similar_commits` keeps at most `limit` results; they are the
image of the backing rows `selectedRows`, which are ordered by descending
cosine similarity with equal similarities ranked most-recent-first (the
stable Python sort runs on candidates already in timestamp-descending
order).  The hypotheses scope the statement to where the embedding is
exact: pairwise-distinct timestamps (`ORDER BY timestamp DESC` leaves ties
unspecified) and nonzero norms (no NaN, where float comparison is not a
total preorder; the NaN case is claim C4's).  No similarity is NaN here. -/
theorem C5_find_similar_ranking (normF : List ℚ → ℚ) (qe : List ℚ) (rows : List CRow)
    (limit : Nat)
    (hts : rows.Pairwise (fun a b => a.timestamp ≠ b.timestamp))
    (hq : normF qe ≠ 0)
    (hr : ∀ r ∈ rows, normF r.embedding ≠ 0) :
    (find_similar_commits normF qe rows limit).length ≤ limit ∧
    find_similar_commits normF qe rows limit =
      (selectedRows normF qe rows limit).map (toResult normF qe) ∧
    (selectedRows normF qe rows limit).Pairwise (rowSimDesc normF qe) ∧
    (selectedRows normF qe rows limit).Pairwise (fun a b =>
      cosineSim normF qe a.embedding = cosineSim normF qe b.embedding →
        b.timestamp < a.timestamp) ∧
    ∀ res ∈ find_similar_commits normF qe rows limit,
      ∃ q : ℚ, res.similarity = Sim.val q := by
  have hwind_lt :
      ((List.insertionSort byTsDesc rows).take 50).Pairwise
        (fun a b => b.timestamp < a.timestamp) := by
    have h1 : (List.insertionSort byTsDesc rows).Pairwise byTsDesc :=
      List.sorted_insertionSort byTsDesc rows
    have h2 : (List.insertionSort byTsDesc rows).Pairwise
        (fun a b => a.timestamp ≠ b.timestamp) :=
      ((List.perm_insertionSort byTsDesc rows).pairwise_iff
        (fun {_ _} h => Ne.symm h)).mpr hts
    have h3 : (List.insertionSort byTsDesc rows).Pairwise
        (fun a b => b.timestamp < a.timestamp) :=
      (h1.and h2).imp (fun hab => lt_of_le_of_ne hab.1 hab.2.symm)
    exact List.Pairwise.sublist (List.take_sublist 50 _) h3
  have hwind_nd : ((List.insertionSort byTsDesc rows).take 50).Nodup :=
    hwind_lt.imp (fun hlt heq => absurd hlt (by rw [heq]; exact lt_irrefl _))
  have hstable := insertionSort_pairwise_stable (rowSimDesc normF qe)
    (fun a b => b.timestamp < a.timestamp) hwind_lt hwind_nd
  refine ⟨?_, ?_, ?_, ?_, ?_⟩
  · unfold find_similar_commits
    simp [List.length_take]
  · unfold find_similar_commits selectedRows
    rw [List.map_take, List.map_insertionSort (rowSimDesc normF qe) bySimDesc
      (toResult normF qe) _ (fun _ _ _ _ => Iff.rfl)]
  · unfold selectedRows
    exact List.Pairwise.sublist (List.take_sublist limit _) (hstable.imp fun h => h.1)
  · unfold selectedRows
    refine List.Pairwise.sublist (List.take_sublist limit _) (hstable.imp ?_)
    intro a b h heq
    refine h.2 ?_
    show Sim.le (cosineSim normF qe a.embedding) (cosineSim normF qe b.embedding)
    rw [heq]
    exact simLe_refl _
  · intro res hres
    rcases mem_find_similar hres with ⟨r, hrm, rfl⟩
    refine ⟨dotQ qe r.embedding / (normF qe * normF r.embedding), ?_⟩
    simp [toResult, cosineSim, mul_ne_zero hq (hr r hrm)]

/-- C5 witness: two rows with distinct timestamps and nonzero norms, query
`[1]`, limit 2. -/
theorem C5_find_similar_ranking_witness :
    (find_similar_commits normSq [1] [r5a, r5b] 2).length ≤ 2 ∧
    find_similar_commits normSq [1] [r5a, r5b] 2 =
      (selectedRows normSq [1] [r5a, r5b] 2).map (toResult normSq [1]) ∧
    (selectedRows normSq [1] [r5a, r5b] 2).Pairwise (rowSimDesc normSq [1]) ∧
    (selectedRows normSq [1] [r5a, r5b] 2).Pairwise (fun a b =>
      cosineSim normSq [1] a.embedding = cosineSim normSq [1] b.embedding →
        b.timestamp < a.timestamp) ∧
    ∀ res ∈ find_similar_commits normSq [1] [r5a, r5b] 2,
      ∃ q : ℚ, res.similarity = Sim.val q :=
  C5_find_similar_ranking normSq [1] [r5a, r5b] 2
    (by norm_num [List.pairwise_cons, r5a, r5b])
    (by norm_num [normSq, dotQ])
    (by intro r hr
        rcases List.mem_cons.mp hr with rfl | hr
        · norm_num [normSq, dotQ, r5a]
        · rcases List.mem_cons.mp hr with rfl | hr
          · norm_num [normSq, dotQ, r5b]
          · cases hr)

end Gitgeist

